import Mathlib

/-!
# Substring-frequency pipeline of `main.cpp`

A shallow embedding of `src/Parallel-programming-gpu/main.cpp`.

Conventions of the embedding.

* A `char` is a natural number (its value as `unsigned char`); a `std::string`
  is a list of them.  No arithmetic is done on characters.
* An `int` is an `Int` that every operation brings back into the 32-bit range
  with `toInt` (two's complement; where C++ leaves a signed overflow undefined
  this is the result the machine gives, and the theorems that need exact
  arithmetic state the bound under which no overflow occurs); a `std::size_t`
  is a `Nat` below `2^64`, and `toSizeT` is the conversion
  `static_cast<std::size_t>` of an `int`.
* `std::map<string, int>` is the list of its entries in ascending key order,
  which is the order in which the range-`for` of `main` visits them.
* OpenCL calls report errors through their return value (the header is used
  without exceptions) and the source ignores it; a platform with a GPU device
  on which `kernel.cl` builds is taken as present.  A launch the runtime
  refuses leaves the output bytes as they were: those bytes are the parameter
  `stale`.
-/

namespace KmerFreq

/-- One `char`, by its value as `unsigned char`. -/
abbrev Byte := Nat

/-- A `std::string`. -/
abbrev Str := List Byte

/-- A `std::map<string, int>`: its entries, in ascending key order. -/
abbrev FreqMap := List (Str × Int)

/-- Memory addressed by byte offset (a `char*` array, a device buffer). -/
abbrev Mem := Nat → Byte

/-- Exceptions that leave `calculateFrequenciesOpenCL`; nothing catches them. -/
inductive Fault where
  /-- thrown by `new char[n]` for a negative `n` (`std::bad_alloc` family) -/
  | badAlloc
  /-- thrown by `string(p, n)` for a negative `n` (`std::length_error`) -/
  | lengthError
deriving DecidableEq, Repr

deriving instance DecidableEq for Except

/-- The value of type `int` congruent to `z` modulo `2^32`. -/
def toInt (z : Int) : Int := (z + 2147483648) % 4294967296 - 2147483648

/-- Conversion `static_cast<std::size_t>(z)` of an `int`, `size_t` being 64 bits wide. -/
def toSizeT (z : Int) : Nat := (z % 18446744073709551616).toNat

/-- Comparison `a < b` of two `std::string`s: byte by byte, a proper prefix
being smaller. -/
def strLess : Str → Str → Bool
  | [], [] => false
  | [], _ :: _ => true
  | _ :: _, [] => false
  | a :: as, b :: bs => if a < b then true else if b < a then false else strLess as bs

/-- Statement `++frequencyMap[key]`: `operator[]` finds the entry equivalent
to `key` (neither smaller nor greater) or inserts `(key, 0)` at its place in
the order, and the entry's count is incremented. -/
def mapIncr (key : Str) : FreqMap → FreqMap
  | [] => [(key, toInt (0 + 1))]
  | (k, c) :: rest =>
    if strLess key k then (key, toInt (0 + 1)) :: (k, c) :: rest
    else if strLess k key then (k, c) :: mapIncr key rest
    else (k, toInt (c + 1)) :: rest

/-- Lookup `frequencyMap.find(key)`: the count stored under `key`, if any. -/
def mapFind (key : Str) : FreqMap → Option Int
  | [] => none
  | (k, c) :: rest => if k = key then some c else mapFind key rest

/-- Sum of all counts of a table. -/
def sumCounts (m : FreqMap) : Int := (m.map Prod.snd).sum

/-- Constructor `string(p + offset, n)` for `n ≥ 0`: the `n` bytes from `offset`. -/
def mkString (p : Mem) (offset : Int) (n : Int) : Str :=
  (List.range n.toNat).map (fun j => p (offset.toNat + j))

/-- Folding `++frequencyMap[key]` over a list of keys. -/
def foldKeys (keys : List Str) (m : FreqMap) : FreqMap :=
  keys.foldl (fun m k => mapIncr k m) m

/-- Lines 70-73, the aggregation loop
`for (int i = 0; i < totalSubsequences; ++i) ++frequencyMap[string(subsequences + i * substringLength, substringLength)]`. -/
def aggregate (subsequences : Mem) (totalSubsequences substringLength : Int)
    (frequencyMap : FreqMap) : FreqMap :=
  (List.range totalSubsequences.toNat).foldl
    (fun m (i : Nat) => mapIncr (mkString subsequences (toInt ((i : Int) * substringLength)) substringLength) m)
    frequencyMap

/-- Modelled from the spec: `kernel.cl`, which holds the entry point
`calculateFrequenciesKernel`, is not among the sources.  By the spec the entry
point takes (input sequence, sequence length, window length, output buffer,
total window count) and the work-item of global index `gid` writes window
`gid`, the bytes `sequence[gid .. gid + substringLength)`, into the output
buffer at offset `gid * substringLength`; it writes nowhere else. -/
def calculateFrequenciesKernel (sequence : Str) (substringLength totalSubsequences : Int)
    (gid : Nat) (output : Mem) : Mem :=
  if (gid : Int) < totalSubsequences then
    fun p =>
      if gid * substringLength.toNat ≤ p ∧ p < gid * substringLength.toNat + substringLength.toNat then
        sequence.getD (gid + (p - gid * substringLength.toNat)) 0
      else output p
  else output

/-- Work-item indices that `enqueueNDRangeKernel(kernel, NullRange, NDRange(globalSize),
NDRange(localSize))` runs for a program built with `-cl-std=CL1.2`: all of
`[0, globalSize)` when the global size is a whole number of work-groups, none
otherwise (the call returns `CL_INVALID_WORK_GROUP_SIZE`, or
`CL_INVALID_GLOBAL_WORK_SIZE` for an empty range).  The device is taken to
accept work-groups of up to 1024 items, the ceiling the source assumes. -/
def launchedWorkItems (globalSize localSize : Nat) : List Nat :=
  if localSize ≠ 0 ∧ globalSize % localSize = 0 then List.range globalSize else []

/-- Lines 63-67: the launch and the blocking read-back.  The result is the
content of the host array `subsequences`: each launched work-item has written
its block over the bytes `stale` that were there. -/
def readBack (sequence : Str) (substringLength totalSubsequences : Int)
    (globalSize localSize : Nat) (stale : Mem) : Mem :=
  (launchedWorkItems globalSize localSize).foldl
    (fun out gid => calculateFrequenciesKernel sequence substringLength totalSubsequences gid out)
    stale

/-- What one call of `calculateFrequenciesOpenCL` computes. -/
structure Run where
  /-- local `totalSubsequences` (line 24) -/
  totalSubsequences : Int
  /-- local `globalSize` (line 59) -/
  globalSize : Nat
  /-- local `localSizeCl` (line 60) -/
  localSizeCl : Nat
  /-- `frequencyMap` when the function returns, or the exception leaving it -/
  frequencyMap : Except Fault FreqMap

/-- Function `calculateFrequenciesOpenCL(sequence, substringLength, frequencyMap, localSize)`. -/
def calculateFrequenciesOpenCL (sequence : Str) (substringLength : Int)
    (frequencyMap : FreqMap) (_localSize : Int) (stale : Mem) : Run :=
  let sequenceLength : Int := toInt sequence.length
  let totalSubsequences : Int := toInt (toInt (sequenceLength - substringLength) + 1)
  let globalSize : Nat := toSizeT totalSubsequences
  let localSizeCl : Nat := min 1024 (toSizeT totalSubsequences)
  let bufferSize : Int := toInt (totalSubsequences * substringLength)
  { totalSubsequences := totalSubsequences
    globalSize := globalSize
    localSizeCl := localSizeCl
    frequencyMap :=
      if bufferSize < 0 then Except.error Fault.badAlloc
      else if 0 < totalSubsequences ∧ substringLength < 0 then Except.error Fault.lengthError
      else
        Except.ok (aggregate
          (readBack sequence substringLength totalSubsequences globalSize localSizeCl stale)
          totalSubsequences substringLength frequencyMap) }

/-- Lines 101-105, the reading loop of `main` over the lines `getline` returns:
`if (line.empty() || line[0] == '>') continue; sequence += line;`
(the character `'>'` is 62). -/
def readSequence (lines : List Str) : Str :=
  lines.foldl
    (fun sequence line => if line.isEmpty || line.head? == some 62 then sequence else sequence ++ line)
    []

/-- The sequence as the spec words it: the content lines (neither blank nor
starting with the header marker), concatenated in file order with no separator. -/
def contentConcat (lines : List Str) : Str :=
  (lines.filter (fun line => decide (line ≠ []) && decide (line.head? ≠ some 62))).flatten

/-- How a run of `main` ends. -/
inductive Outcome where
  /-- `main` returned `status`; `rows` are the rows `key,count` written to the
  CSV file, in the order written, or `none` when that file was never opened -/
  | returned (status : Int) (rows : Option (List (Str × Int)))
  /-- an exception nobody catches ended the process; the CSV file was never opened -/
  | terminated (fault : Fault)
deriving DecidableEq, Repr

/-- Lines 114-124 of `main`, reached when `calculateFrequenciesOpenCL` has
returned: the table is written row by row in the order of the map, provided the
output file opens.  An exception that left the call ends the process first. -/
def writeOutput (csvOpens : Bool) : Except Fault FreqMap → Outcome
  | Except.error fault => Outcome.terminated fault
  | Except.ok frequencyMap =>
    if csvOpens then Outcome.returned 0 (some frequencyMap) else Outcome.returned 1 none

/-- Function `main`.  `fasta` holds the lines of the input file (`none` when it
cannot be opened), `maxProtLenEnv` and `cpuCoresEnv` the values of `MAXPROTLEN`
and `MAXCORES` as `stoi` reads them (`none` when unset), `csvOpens` tells
whether the output file opens for writing. -/
def main (fasta : Option (List Str)) (maxProtLenEnv cpuCoresEnv : Option Int)
    (csvOpens : Bool) (stale : Mem) : Outcome :=
  let maxProteinLength : Int := maxProtLenEnv.getD 3
  let cpuCores : Int := cpuCoresEnv.getD 1
  match fasta with
  | none => Outcome.returned 1 none
  | some lines =>
    let sequence := readSequence lines
    writeOutput csvOpens
      (calculateFrequenciesOpenCL sequence maxProteinLength [] cpuCores stale).frequencyMap

/-- Block `i` of a raw window buffer: its bytes `[i * L, i * L + L)`. -/
def block (buffer : Mem) (L i : Nat) : Str :=
  (List.range L).map (fun j => buffer (i * L + j))

/-- Number of indices `i` in `[0, totalWorkItems)` whose block equals `k`. -/
def blockCount (buffer : Mem) (totalWorkItems L : Nat) (k : Str) : Nat :=
  ((List.range totalWorkItems).filter (fun i => decide (block buffer L i = k))).length

/-- A table is ordered when its keys strictly ascend for `strLess`. -/
def Sorted (m : FreqMap) : Prop := m.Pairwise (fun p q => strLess p.1 q.1 = true)

/-! ## Machine integers -/

theorem toInt_eq_self {z : Int} (h₁ : -2147483648 ≤ z) (h₂ : z < 2147483648) : toInt z = z := by
  unfold toInt
  omega

theorem toSizeT_eq_toNat {z : Int} (h₁ : 0 ≤ z) (h₂ : z < 2147483648) : toSizeT z = z.toNat := by
  unfold toSizeT
  omega

/-! ## The order of `std::string` -/

theorem strLess_irrefl (a : Str) : strLess a a = false := by
  induction a with
  | nil => rfl
  | cons x xs ih => simp [strLess, ih]

theorem strLess_trans : ∀ {a b c : Str}, strLess a b = true → strLess b c = true → strLess a c = true
  | [], [], _, h, _ => by simp [strLess] at h
  | [], _ :: _, [], _, h => by simp [strLess] at h
  | [], _ :: _, _ :: _, _, _ => by simp [strLess]
  | _ :: _, [], _, h, _ => by simp [strLess] at h
  | _ :: _, _ :: _, [], _, h => by simp [strLess] at h
  | x :: xs, y :: ys, z :: zs, h₁, h₂ => by
    simp only [strLess] at h₁ h₂ ⊢
    by_cases hxy : x < y
    · by_cases hyz : y < z
      · have : x < z := lt_trans hxy hyz
        simp [this]
      · by_cases hzy : z < y
        · simp [hyz, hzy] at h₂
        · have : y = z := Nat.le_antisymm (Nat.le_of_not_lt hzy) (Nat.le_of_not_lt hyz)
          subst this
          simp [hxy]
    · by_cases hyx : y < x
      · simp [hxy, hyx] at h₁
      · have hxy' : x = y := Nat.le_antisymm (Nat.le_of_not_lt hyx) (Nat.le_of_not_lt hxy)
        subst hxy'
        simp only [hxy, if_false] at h₁
        by_cases hxz : x < z
        · simp [hxz]
        · by_cases hzx : z < x
          · simp [hxz, hzx] at h₂
          · simp only [hxz, hzx, if_false] at h₂ ⊢
            exact strLess_trans h₁ h₂

theorem strLess_total : ∀ {a b : Str}, strLess a b = false → strLess b a = false → a = b
  | [], [], _, _ => rfl
  | [], _ :: _, h, _ => by simp [strLess] at h
  | _ :: _, [], _, h => by simp [strLess] at h
  | x :: xs, y :: ys, h₁, h₂ => by
    simp only [strLess] at h₁ h₂
    by_cases hxy : x < y
    · simp [hxy] at h₁
    · by_cases hyx : y < x
      · simp [hyx] at h₂
      · simp only [hxy, hyx, if_false] at h₁ h₂
        have : x = y := Nat.le_antisymm (Nat.le_of_not_lt hyx) (Nat.le_of_not_lt hxy)
        rw [this, strLess_total h₁ h₂]

theorem strLess_ne {a b : Str} (h : strLess a b = true) : a ≠ b := by
  intro hab
  rw [hab, strLess_irrefl] at h
  exact Bool.false_ne_true h

/-! ## The table `std::map<string, int>` -/

theorem fst_mem_mapIncr {key : Str} {m : FreqMap} {p : Str × Int} (h : p ∈ mapIncr key m) :
    p.1 = key ∨ p.1 ∈ m.map Prod.fst := by
  induction m with
  | nil =>
    simp only [mapIncr, List.mem_singleton] at h
    exact Or.inl (by rw [h])
  | cons e rest ih =>
    obtain ⟨k, c⟩ := e
    simp only [mapIncr] at h
    split at h
    · rcases List.mem_cons.mp h with h | h
      · exact Or.inl (by rw [h])
      · exact Or.inr (List.mem_map_of_mem Prod.fst h)
    · split at h
      · rcases List.mem_cons.mp h with h | h
        · exact Or.inr (by rw [h]; simp)
        · rcases ih h with h | h
          · exact Or.inl h
          · exact Or.inr (List.mem_cons_of_mem _ h)
      · rcases List.mem_cons.mp h with h | h
        · exact Or.inr (by rw [h]; simp)
        · exact Or.inr (List.mem_cons_of_mem _ (List.mem_map_of_mem Prod.fst h))

theorem sorted_mapIncr {key : Str} {m : FreqMap} (h : Sorted m) : Sorted (mapIncr key m) := by
  induction m with
  | nil => simp [mapIncr, Sorted]
  | cons e rest ih =>
    obtain ⟨k, c⟩ := e
    have hk : ∀ q ∈ rest, strLess k q.1 = true := (List.pairwise_cons.mp h).1
    have hrest : Sorted rest := (List.pairwise_cons.mp h).2
    simp only [mapIncr]
    split
    · rename_i hlt
      refine List.pairwise_cons.mpr ⟨?_, h⟩
      intro q hq
      rcases List.mem_cons.mp hq with hq | hq
      · rw [hq]; exact hlt
      · exact strLess_trans hlt (hk q hq)
    · split
      · rename_i hgt
        refine List.pairwise_cons.mpr ⟨?_, ih hrest⟩
        intro q hq
        rcases fst_mem_mapIncr hq with hq | hq
        · rw [hq]; exact hgt
        · obtain ⟨q', hq', hfst⟩ := List.mem_map.mp hq
          have := hk q' hq'
          rw [hfst] at this
          exact this
      · exact List.pairwise_cons.mpr ⟨hk, hrest⟩

theorem mapFind_eq_none {key : Str} {m : FreqMap} (h : ∀ q ∈ m, q.1 ≠ key) :
    mapFind key m = none := by
  induction m with
  | nil => rfl
  | cons e rest ih =>
    obtain ⟨k, c⟩ := e
    have hk : k ≠ key := h (k, c) (List.mem_cons_self _ _)
    simp only [mapFind, hk, if_false]
    exact ih (fun q hq => h q (List.mem_cons_of_mem _ hq))

theorem mapFind_of_mem {m : FreqMap} (h : Sorted m) {k : Str} {c : Int} (hmem : (k, c) ∈ m) :
    mapFind k m = some c := by
  induction m with
  | nil => cases hmem
  | cons e rest ih =>
    obtain ⟨k₀, c₀⟩ := e
    rcases List.mem_cons.mp hmem with heq | hin
    · cases heq
      simp [mapFind]
    · have hlt : strLess k₀ k = true := (List.pairwise_cons.mp h).1 (k, c) hin
      have hne : k₀ ≠ k := strLess_ne hlt
      simp only [mapFind, hne, if_false]
      exact ih (List.pairwise_cons.mp h).2 hin

theorem mem_of_mapFind {m : FreqMap} {k : Str} {c : Int} (h : mapFind k m = some c) :
    (k, c) ∈ m := by
  induction m with
  | nil => simp [mapFind] at h
  | cons e rest ih =>
    obtain ⟨k₀, c₀⟩ := e
    simp only [mapFind] at h
    split at h
    · rename_i hk
      cases h
      rw [hk]
      exact List.mem_cons_self _ _
    · exact List.mem_cons_of_mem _ (ih h)

theorem mapFind_mapIncr {key : Str} {m : FreqMap} (h : Sorted m) (k' : Str) :
    mapFind k' (mapIncr key m) =
      if k' = key then some (toInt ((mapFind key m).getD 0 + 1)) else mapFind k' m := by
  induction m with
  | nil =>
    by_cases hk : k' = key
    · simp [mapIncr, mapFind, hk]
    · have hk' : key ≠ k' := fun e => hk e.symm
      simp [mapIncr, mapFind, hk, hk']
  | cons e rest ih =>
    obtain ⟨k, c⟩ := e
    have hk : ∀ q ∈ rest, strLess k q.1 = true := (List.pairwise_cons.mp h).1
    have hrest : Sorted rest := (List.pairwise_cons.mp h).2
    simp only [mapIncr]
    split
    · rename_i hlt
      have hnone : mapFind key ((k, c) :: rest) = none := by
        apply mapFind_eq_none
        intro q hq
        rcases List.mem_cons.mp hq with hq | hq
        · rw [hq]; exact fun e => strLess_ne hlt e.symm
        · exact fun e => strLess_ne (strLess_trans hlt (hk q hq)) e.symm
      rw [hnone]
      by_cases hk' : k' = key
      · simp [mapFind, hk']
      · have hk'' : key ≠ k' := fun e => hk' e.symm
        simp [mapFind, hk', hk'']
    · split
      · rename_i hgt
        have hne : k ≠ key := strLess_ne hgt
        by_cases hkk : k = k'
        · have hk' : k' ≠ key := by rw [← hkk]; exact hne
          simp [mapFind, hkk, hk']
        · simp only [mapFind, hkk, hne, if_false]
          exact ih hrest
      · rename_i hnlt hngt
        have heq : key = k :=
          strLess_total (Bool.eq_false_iff.mpr hnlt) (Bool.eq_false_iff.mpr hngt)
        subst heq
        by_cases hk' : k' = key
        · simp [mapFind, hk']
        · have hk'' : key ≠ k' := fun e => hk' e.symm
          simp [mapFind, hk', hk'']

theorem le_sumCounts {m : FreqMap} (hpos : ∀ p ∈ m, 0 < p.2) {p : Str × Int} (hp : p ∈ m) :
    p.2 ≤ sumCounts m := by
  induction m with
  | nil => cases hp
  | cons e rest ih =>
    have hrest : 0 ≤ sumCounts rest := by
      clear ih hp
      induction rest with
      | nil => simp [sumCounts]
      | cons e' rest' ih' =>
        have h1 : 0 < e'.2 := hpos e' (by simp)
        have h2 : 0 ≤ sumCounts rest' := ih' (fun q hq => by
          rcases List.mem_cons.mp hq with hq | hq
          · rw [hq]; exact hpos e (by simp)
          · exact hpos q (by simp [hq]))
        simp only [sumCounts, List.map_cons, List.sum_cons] at h2 ⊢
        omega
    have he : 0 < e.2 := hpos e (List.mem_cons_self _ _)
    rcases List.mem_cons.mp hp with hp | hp
    · rw [hp]
      simp only [sumCounts, List.map_cons, List.sum_cons] at hrest ⊢
      omega
    · have := ih (fun q hq => hpos q (List.mem_cons_of_mem _ hq)) hp
      simp only [sumCounts, List.map_cons, List.sum_cons] at this ⊢
      omega

theorem counts_mapIncr {key : Str} {m : FreqMap}
    (hpos : ∀ p ∈ m, 0 < p.2 ∧ p.2 < 2147483647) :
    sumCounts (mapIncr key m) = sumCounts m + 1 ∧ ∀ p ∈ mapIncr key m, 0 < p.2 := by
  have hone : toInt (0 + 1) = 1 := toInt_eq_self (by omega) (by omega)
  induction m with
  | nil =>
    simp only [mapIncr, hone]
    refine ⟨by simp [sumCounts], ?_⟩
    intro p hp
    rw [List.mem_singleton.mp hp]
    exact Int.one_pos
  | cons e rest ih =>
    obtain ⟨k, c⟩ := e
    have hc : 0 < c ∧ c < 2147483647 := hpos (k, c) (List.mem_cons_self _ _)
    have hrest : ∀ p ∈ rest, 0 < p.2 ∧ p.2 < 2147483647 :=
      fun q hq => hpos q (List.mem_cons_of_mem _ hq)
    simp only [mapIncr, hone]
    split
    · refine ⟨by simp only [sumCounts, List.map_cons, List.sum_cons]; omega, ?_⟩
      intro p hp
      rcases List.mem_cons.mp hp with hp | hp
      · rw [hp]; exact Int.one_pos
      · exact (hpos p hp).1
    · split
      · obtain ⟨ih₁, ih₂⟩ := ih hrest
        refine ⟨?_, ?_⟩
        · simp only [sumCounts, List.map_cons, List.sum_cons] at ih₁ ⊢
          omega
        · intro p hp
          rcases List.mem_cons.mp hp with hp | hp
          · rw [hp]; exact hc.1
          · exact ih₂ p hp
      · have hinc : toInt (c + 1) = c + 1 := toInt_eq_self (by omega) (by omega)
        rw [hinc]
        refine ⟨by simp only [sumCounts, List.map_cons, List.sum_cons]; omega, ?_⟩
        intro p hp
        rcases List.mem_cons.mp hp with hp | hp
        · rw [hp]; show 0 < c + 1; omega
        · exact (hrest p hp).1

theorem foldKeys_append (l₁ l₂ : List Str) (m : FreqMap) :
    foldKeys (l₁ ++ l₂) m = foldKeys l₂ (foldKeys l₁ m) := by
  simp [foldKeys, List.foldl_append]

theorem counts_foldKeys (keys : List Str) (hlen : keys.length < 2147483648) :
    sumCounts (foldKeys keys []) = keys.length ∧ ∀ p ∈ foldKeys keys [], 0 < p.2 := by
  induction keys using List.reverseRecOn with
  | nil => simp [foldKeys, sumCounts]
  | append_singleton l a ih =>
    have hl : (l.length : Int) < 2147483647 := by
      simp only [List.length_append, List.length_singleton] at hlen
      omega
    obtain ⟨ih₁, ih₂⟩ := ih (by omega)
    have hstep := @counts_mapIncr a (foldKeys l []) (fun p hp =>
      ⟨ih₂ p hp, by have := le_sumCounts ih₂ hp; omega⟩)
    rw [foldKeys_append]
    show sumCounts (mapIncr a (foldKeys l [])) = _ ∧ ∀ p ∈ mapIncr a (foldKeys l []), 0 < p.2
    refine ⟨?_, hstep.2⟩
    rw [hstep.1, ih₁]
    simp

theorem sorted_foldKeys (keys : List Str) {m : FreqMap} (h : Sorted m) :
    Sorted (foldKeys keys m) := by
  induction keys generalizing m with
  | nil => exact h
  | cons a l ih => exact ih (sorted_mapIncr h)

theorem fst_mem_foldKeys (keys : List Str) {m : FreqMap} {p : Str × Int}
    (h : p ∈ foldKeys keys m) : p.1 ∈ keys ∨ p.1 ∈ m.map Prod.fst := by
  induction keys generalizing m with
  | nil => exact Or.inr (List.mem_map_of_mem Prod.fst h)
  | cons a l ih =>
    rcases ih (m := mapIncr a m) h with h | h
    · exact Or.inl (List.mem_cons_of_mem _ h)
    · obtain ⟨q, hq, hfst⟩ := List.mem_map.mp h
      rcases fst_mem_mapIncr hq with hq | hq
      · exact Or.inl (by rw [← hfst, hq]; exact List.mem_cons_self _ _)
      · exact Or.inr (by rw [← hfst]; exact hq)

theorem mapFind_foldKeys (keys : List Str) (hlen : keys.length < 2147483648) (k : Str) :
    mapFind k (foldKeys keys []) =
      if keys.count k = 0 then none else some (keys.count k : Int) := by
  induction keys using List.reverseRecOn with
  | nil => simp [foldKeys, mapFind]
  | append_singleton l a ih =>
    have hl : l.length < 2147483647 := by
      simp only [List.length_append, List.length_singleton] at hlen
      omega
    have ihk := ih (by omega)
    have hsorted : Sorted (foldKeys l []) := sorted_foldKeys l List.Pairwise.nil
    have hcnt : ∀ x : Str, l.count x ≤ l.length := fun x => List.count_le_length x l
    rw [foldKeys_append]
    show mapFind k (mapIncr a (foldKeys l [])) = _
    rw [mapFind_mapIncr hsorted, List.count_append]
    by_cases hka : k = a
    · subst hka
      have hget : (mapFind k (foldKeys l [])).getD 0 = (l.count k : Int) := by
        rw [ihk]
        by_cases h0 : l.count k = 0
        · simp [h0]
        · simp [h0]
      have hc := hcnt k
      rw [hget, toInt_eq_self (by omega) (by omega)]
      simp
    · have hak : ¬ a = k := fun e => hka e.symm
      have h0 : List.count k [a] = 0 := by simp [List.count_singleton, hak]
      simp only [hka, if_false, h0, Nat.add_zero]
      exact ihk

/-! ## The aggregation loop -/

theorem aggregate_eq_foldKeys (subsequences : Mem) (totalSubsequences substringLength : Int)
    (m : FreqMap) :
    aggregate subsequences totalSubsequences substringLength m =
      foldKeys ((List.range totalSubsequences.toNat).map
        (fun i : Nat => mkString subsequences (toInt ((i : Int) * substringLength)) substringLength)) m := by
  simp [aggregate, foldKeys, List.foldl_map]

theorem mkString_eq_block (buffer : Mem) {total L i : Nat} (hi : i < total)
    (hfit : total * L < 2147483648) :
    mkString buffer (toInt ((i : Int) * (L : Int))) (L : Int) = block buffer L i := by
  have hle : i * L ≤ total * L := Nat.mul_le_mul_right L (Nat.le_of_lt hi)
  have hcast : ((i : Int) * (L : Int)) = ((i * L : Nat) : Int) := by push_cast; rfl
  rw [hcast, toInt_eq_self (by omega) (by omega)]
  simp only [mkString, block, Int.toNat_ofNat]

theorem aggregate_eq_foldKeys_block (buffer : Mem) (total L : Nat)
    (hfit : total * L < 2147483648) (m : FreqMap) :
    aggregate buffer (total : Int) (L : Int) m =
      foldKeys ((List.range total).map (block buffer L)) m := by
  rw [aggregate_eq_foldKeys, Int.toNat_ofNat]
  have hmap : (List.range total).map
      (fun i : Nat => mkString buffer (toInt ((i : Int) * (L : Int))) (L : Int)) =
      (List.range total).map (block buffer L) :=
    List.map_congr_left (fun i hi => mkString_eq_block buffer (List.mem_range.mp hi) hfit)
  rw [hmap]

theorem count_map_block (buffer : Mem) (total L : Nat) (k : Str) :
    ((List.range total).map (block buffer L)).count k = blockCount buffer total L k := by
  unfold blockCount
  rw [List.count_eq_countP, List.countP_map, List.countP_eq_length_filter]
  congr 1
  apply List.filter_congr
  intro i _
  show (block buffer L i == k) = decide (block buffer L i = k)
  by_cases h : block buffer L i = k
  · simp [h]
  · simp [h]

theorem getD_range_length (l : Str) :
    (List.range l.length).map (fun j => l.getD j 0) = l := by
  apply List.ext_getElem
  · simp
  · intro n h₁ h₂
    simp [List.getD_eq_getElem?_getD, h₂]

/-! ## Valid runs of `calculateFrequenciesOpenCL` -/

theorem length_le_bufferSize {N L : Int} (hL : 1 ≤ L) (hN : L ≤ N) : N ≤ (N - L + 1) * L := by
  nlinarith [mul_nonneg (sub_nonneg.mpr hN) (sub_nonneg.mpr hL)]

theorem calculateFrequenciesOpenCL_valid (sequence : Str) (L : Int) (m : FreqMap) (hint : Int)
    (stale : Mem) (hL : 1 ≤ L) (hN : L ≤ sequence.length)
    (hfit : ((sequence.length : Int) - L + 1) * L < 2147483648) :
    calculateFrequenciesOpenCL sequence L m hint stale =
      { totalSubsequences := (sequence.length : Int) - L + 1
        globalSize := ((sequence.length : Int) - L + 1).toNat
        localSizeCl := min 1024 ((sequence.length : Int) - L + 1).toNat
        frequencyMap := Except.ok (aggregate
          (readBack sequence L ((sequence.length : Int) - L + 1)
            ((sequence.length : Int) - L + 1).toNat
            (min 1024 ((sequence.length : Int) - L + 1).toNat) stale)
          ((sequence.length : Int) - L + 1) L m) } := by
  have hNfit : (sequence.length : Int) < 2147483648 :=
    lt_of_le_of_lt (length_le_bufferSize hL hN) hfit
  have hN0 : (0 : Int) ≤ sequence.length := Int.ofNat_nonneg _
  have h₁ : toInt (sequence.length : Int) = sequence.length := toInt_eq_self (by omega) (by omega)
  have h₂ : toInt ((sequence.length : Int) - L) = sequence.length - L :=
    toInt_eq_self (by omega) (by omega)
  have h₃ : toInt ((sequence.length : Int) - L + 1) = sequence.length - L + 1 :=
    toInt_eq_self (by omega) (by omega)
  have hprod : 0 ≤ ((sequence.length : Int) - L + 1) * L :=
    le_trans hN0 (length_le_bufferSize hL hN)
  have h₄ : toInt (((sequence.length : Int) - L + 1) * L) = (sequence.length - L + 1) * L :=
    toInt_eq_self (by omega) hfit
  have h₅ : toSizeT ((sequence.length : Int) - L + 1) = ((sequence.length : Int) - L + 1).toNat :=
    toSizeT_eq_toNat (by omega) (by omega)
  have h₆ : ¬ (((sequence.length : Int) - L + 1) * L < 0) := not_lt.mpr hprod
  have h₇ : ¬ (0 < (sequence.length : Int) - L + 1 ∧ L < 0) := fun h => by omega
  simp only [calculateFrequenciesOpenCL, h₁, h₂, h₃, h₄, h₅, h₆, h₇, if_false]

theorem readSequence_foldl (lines : List Str) (acc : Str) :
    lines.foldl
      (fun sequence line => if line.isEmpty || line.head? == some 62 then sequence else sequence ++ line)
      acc = acc ++ contentConcat lines := by
  induction lines generalizing acc with
  | nil => simp [contentConcat]
  | cons line rest ih =>
    rw [List.foldl_cons, ih]
    cases line with
    | nil => simp [contentConcat]
    | cons x xs =>
      by_cases hx : x = 62
      · subst hx
        simp [contentConcat]
      · simp [contentConcat, hx]

theorem foldKeys_replicate (k : Str) (n : Nat) (hn : n < 2147483647) :
    foldKeys (List.replicate (n + 1) k) [] = [(k, (n : Int) + 1)] := by
  induction n with
  | zero =>
    have hone : toInt 1 = 1 := toInt_eq_self (by omega) (by omega)
    simp [foldKeys, mapIncr, hone]
  | succ n ih =>
    have hinc : toInt ((n : Int) + 1 + 1) = (n : Int) + 1 + 1 :=
      toInt_eq_self (by omega) (by omega)
    rw [List.replicate_succ', foldKeys_append, ih (by omega)]
    simp [foldKeys, mapIncr, strLess_irrefl, hinc]

theorem readBack_single (sequence : Str) (stale : Mem) :
    mkString (readBack sequence (sequence.length : Int) 1 1 (min 1024 1) stale) 0
      (sequence.length : Int) = sequence := by
  have hmin : min 1024 1 = 1 := by decide
  have hlaunch : launchedWorkItems 1 1 = [0] := by decide
  simp only [mkString, readBack, hmin, hlaunch, List.foldl_cons, List.foldl_nil,
    calculateFrequenciesKernel, Int.toNat_ofNat]
  have hmap : (List.range sequence.length).map
      (fun j => (if ((0 : Nat) : Int) < 1 then
          (fun p => if 0 * sequence.length ≤ p ∧ p < 0 * sequence.length + sequence.length then
            sequence.getD (0 + (p - 0 * sequence.length)) 0 else stale p)
        else stale) ((0 : Int).toNat + j)) =
      (List.range sequence.length).map (fun j => sequence.getD j 0) := by
    apply List.map_congr_left
    intro j hj
    have hj' : j < sequence.length := List.mem_range.mp hj
    simp [hj']
  rw [hmap, getD_range_length]

/-! ## Runs whose sizes stay in the range of `int` -/

theorem calculateFrequenciesOpenCL_inRange (sequence : Str) (L : Int) (m : FreqMap) (hint : Int)
    (stale : Mem) (hN : (sequence.length : Int) < 2147483648)
    (hsub₁ : -2147483648 ≤ (sequence.length : Int) - L)
    (htot : (sequence.length : Int) - L + 1 < 2147483648)
    (hprod₁ : -2147483648 ≤ ((sequence.length : Int) - L + 1) * L)
    (hprod₂ : ((sequence.length : Int) - L + 1) * L < 2147483648) :
    (calculateFrequenciesOpenCL sequence L m hint stale).frequencyMap =
      if ((sequence.length : Int) - L + 1) * L < 0 then Except.error Fault.badAlloc
      else if 0 < (sequence.length : Int) - L + 1 ∧ L < 0 then Except.error Fault.lengthError
      else Except.ok (aggregate
        (readBack sequence L ((sequence.length : Int) - L + 1)
          (toSizeT ((sequence.length : Int) - L + 1))
          (min 1024 (toSizeT ((sequence.length : Int) - L + 1))) stale)
        ((sequence.length : Int) - L + 1) L m) := by
  have hN0 : (0 : Int) ≤ sequence.length := Int.ofNat_nonneg _
  have h₁ : toInt (sequence.length : Int) = sequence.length := toInt_eq_self (by omega) (by omega)
  have h₂ : toInt ((sequence.length : Int) - L) = sequence.length - L :=
    toInt_eq_self hsub₁ (by omega)
  have h₃ : toInt ((sequence.length : Int) - L + 1) = sequence.length - L + 1 :=
    toInt_eq_self (by omega) htot
  have h₄ : toInt (((sequence.length : Int) - L + 1) * L) = (sequence.length - L + 1) * L :=
    toInt_eq_self hprod₁ hprod₂
  simp only [calculateFrequenciesOpenCL, h₁, h₂, h₃, h₄]

theorem aggregate_zero (subsequences : Mem) (L : Int) (m : FreqMap) :
    aggregate subsequences 0 L m = m := rfl

theorem aggregate_empty_keys (subsequences : Mem) (n : Nat) (hn : n < 2147483647) :
    aggregate subsequences ((n : Int) + 1) 0 [] = [([], (n : Int) + 1)] := by
  have hcast : ((n : Int) + 1) = ((n + 1 : Nat) : Int) := by push_cast; rfl
  have hL : (0 : Int) = ((0 : Nat) : Int) := rfl
  rw [hcast, hL, aggregate_eq_foldKeys_block subsequences (n + 1) 0 (by omega)]
  have hmap : (List.range (n + 1)).map (block subsequences 0) = List.replicate (n + 1) [] := by
    apply List.eq_replicate_iff.mpr
    refine ⟨by simp, ?_⟩
    intro b hb
    obtain ⟨i, _, hi⟩ := List.mem_map.mp hb
    rw [← hi]
    rfl
  rw [hmap, foldKeys_replicate [] n hn]
  push_cast
  rfl

theorem keys_of_sorted {m : FreqMap} (h : Sorted m) :
    (m.map Prod.fst).Pairwise (fun a b => strLess a b = true) ∧ (m.map Prod.fst).Nodup := by
  have hpair : (m.map Prod.fst).Pairwise (fun a b => strLess a b = true) := by
    rw [List.pairwise_map]
    exact h
  exact ⟨hpair, hpair.imp (fun h => strLess_ne h)⟩

theorem main_some (lines : List Str) (maxProtLenEnv cpuCoresEnv : Option Int) (csvOpens : Bool)
    (stale : Mem) :
    main (some lines) maxProtLenEnv cpuCoresEnv csvOpens stale =
      writeOutput csvOpens
        (calculateFrequenciesOpenCL (readSequence lines) (maxProtLenEnv.getD 3) []
          (cpuCoresEnv.getD 1) stale).frequencyMap :=
  rfl

theorem calculateFrequenciesOpenCL_whole (sequence : Str) (localSize : Int) (stale : Mem)
    (hN : 1 ≤ sequence.length) (hfit : sequence.length < 2147483648) :
    calculateFrequenciesOpenCL sequence (sequence.length : Int) [] localSize stale =
      { totalSubsequences := 1
        globalSize := 1
        localSizeCl := 1
        frequencyMap := Except.ok [(sequence, 1)] } := by
  have h1 : (sequence.length : Int) - sequence.length + 1 = 1 := by omega
  have hrun := calculateFrequenciesOpenCL_valid sequence (sequence.length : Int) [] localSize stale
    (by omega) (le_refl _) (by rw [h1]; omega)
  rw [h1] at hrun
  rw [hrun]
  have htoNat : (1 : Int).toNat = 1 := rfl
  have hmin : min 1024 1 = 1 := by decide
  have hzero : toInt (((0 : Nat) : Int) * (sequence.length : Int)) = 0 := by
    simp [toInt]
  have hone : toInt (0 + 1) = 1 := toInt_eq_self (by omega) (by omega)
  have hagg : aggregate (readBack sequence (sequence.length : Int) 1 1 (min 1024 1) stale) 1
      (sequence.length : Int) [] = [(sequence, 1)] := by
    have hrange : List.range 1 = [0] := rfl
    simp only [aggregate, htoNat, hrange, List.foldl_cons, List.foldl_nil, hzero,
      readBack_single, mapIncr, hone]
  simp only [htoNat]
  rw [hagg, hmin]

theorem frequencyMap_eq_ok {sequence : Str} {L : Int} {m : FreqMap} {hint : Int} {stale : Mem}
    {table : FreqMap}
    (h : (calculateFrequenciesOpenCL sequence L m hint stale).frequencyMap = Except.ok table) :
    ∃ subsequences : Mem,
      table = aggregate subsequences
        (calculateFrequenciesOpenCL sequence L m hint stale).totalSubsequences L m ∧
      ¬ (0 < (calculateFrequenciesOpenCL sequence L m hint stale).totalSubsequences ∧ L < 0) := by
  simp only [calculateFrequenciesOpenCL] at h ⊢
  split at h
  · exact Except.noConfusion h
  · split at h
    · exact Except.noConfusion h
    · rename_i hneg
      exact ⟨_, (Except.ok.inj h).symm, hneg⟩

/-! ## The claims -/

/-- C1, refuted as stated: for a sequence of 100000 bytes and `L = 50000`, which
satisfy `1 ≤ L ≤ N`, the window count is 50001 but the buffer size
`50001 * 50000` does not fit the `int` it is computed in; line 66 asks
`new char[n]` for a negative `n`, the allocation throws, and no table is left. -/
theorem buffer_size_overflow_aborts :
    ((1 : Int) ≤ 50000 ∧ (50000 : Int) ≤ ((List.replicate 100000 65 : Str).length : Int)) ∧
    (calculateFrequenciesOpenCL (List.replicate 100000 65) 50000 [] 1 (fun _ => 0)).totalSubsequences
      = 50001 ∧
    (calculateFrequenciesOpenCL (List.replicate 100000 65) 50000 [] 1 (fun _ => 0)).frequencyMap
      = Except.error Fault.badAlloc ∧
    ¬ ∃ table,
      (calculateFrequenciesOpenCL (List.replicate 100000 65) 50000 [] 1 (fun _ => 0)).frequencyMap
        = Except.ok table ∧
      sumCounts table = ((List.replicate 100000 65 : Str).length : Int) - 50000 + 1 := by
  have hlen : ((List.replicate 100000 65 : Str).length : Int) = 100000 := by
    rw [List.length_replicate]; rfl
  have h₁ : toInt (100000 : Int) = 100000 := toInt_eq_self (by omega) (by omega)
  have h₂ : toInt ((100000 : Int) - 50000) = 50000 := by
    rw [toInt_eq_self (by omega) (by omega)]; omega
  have h₃ : toInt ((50000 : Int) + 1) = 50001 := by
    rw [toInt_eq_self (by omega) (by omega)]; omega
  have h₄ : toInt ((50001 : Int) * 50000) = -1794917296 := by
    unfold toInt; omega
  have hneg : (-1794917296 : Int) < 0 := by omega
  have hmap : (calculateFrequenciesOpenCL (List.replicate 100000 65) 50000 [] 1
      (fun _ => 0)).frequencyMap = Except.error Fault.badAlloc := by
    simp only [calculateFrequenciesOpenCL, hlen, h₁, h₂, h₃, h₄, hneg, if_true]
  have htotal : (calculateFrequenciesOpenCL (List.replicate 100000 65) 50000 [] 1
      (fun _ => 0)).totalSubsequences = 50001 := by
    simp only [calculateFrequenciesOpenCL, hlen, h₁, h₂, h₃]
  refine ⟨⟨by omega, by rw [hlen]; omega⟩, htotal, hmap, ?_⟩
  rintro ⟨table, htable, _⟩
  rw [hmap] at htable
  exact Except.noConfusion htable

/-- C1, amended.  For a sequence of length `N ≥ 1` and a window length `L` with
`1 ≤ L ≤ N` whose buffer size `(N-L+1)·L` fits the `int` it is computed in
(below `2^31`), `calculateFrequenciesOpenCL` started on an empty table computes
`totalSubsequences = N-L+1`, returns, and leaves a table whose counts sum to
`N-L+1`, whatever bytes the device delivered. -/
theorem counts_sum_to_window_count (sequence : Str) (substringLength localSize : Int)
    (stale : Mem) (hL : 1 ≤ substringLength) (hN : substringLength ≤ sequence.length)
    (hfit : ((sequence.length : Int) - substringLength + 1) * substringLength < 2147483648) :
    (calculateFrequenciesOpenCL sequence substringLength [] localSize stale).totalSubsequences
        = (sequence.length : Int) - substringLength + 1 ∧
    ∃ table,
      (calculateFrequenciesOpenCL sequence substringLength [] localSize stale).frequencyMap
        = Except.ok table ∧
      sumCounts table = (sequence.length : Int) - substringLength + 1 := by
  have hNfit : (sequence.length : Int) < 2147483648 :=
    lt_of_le_of_lt (length_le_bufferSize hL hN) hfit
  rw [calculateFrequenciesOpenCL_valid sequence substringLength [] localSize stale hL hN hfit]
  refine ⟨rfl, _, rfl, ?_⟩
  rw [aggregate_eq_foldKeys]
  have hlen := counts_foldKeys
    ((List.range ((sequence.length : Int) - substringLength + 1).toNat).map
      (fun i : Nat =>
        mkString
          (readBack sequence substringLength ((sequence.length : Int) - substringLength + 1)
            ((sequence.length : Int) - substringLength + 1).toNat
            (min 1024 ((sequence.length : Int) - substringLength + 1).toNat) stale)
          (toInt ((i : Int) * substringLength)) substringLength))
    (by simp only [List.length_map, List.length_range]; omega)
  rw [hlen.1]
  simp only [List.length_map, List.length_range]
  omega

/-- Scenario 2 of the spec (sequence "ABAB", `L = 2`) as an instance of amended C1:
three windows, counts summing to three. -/
theorem counts_sum_to_window_count_witness :
    (calculateFrequenciesOpenCL [65, 66, 65, 66] 2 [] 1 (fun _ => 0)).totalSubsequences
        = (([65, 66, 65, 66] : Str).length : Int) - 2 + 1 ∧
    ∃ table,
      (calculateFrequenciesOpenCL [65, 66, 65, 66] 2 [] 1 (fun _ => 0)).frequencyMap
        = Except.ok table ∧
      sumCounts table = (([65, 66, 65, 66] : Str).length : Int) - 2 + 1 :=
  counts_sum_to_window_count [65, 66, 65, 66] 2 1 (fun _ => 0)
    (by decide) (by decide) (by decide)

/-- C2. For a raw window buffer of `totalWorkItems` blocks of length `L` (sizes
that an `int` holds), the aggregation loop started on an empty table yields the
table whose entries are exactly the pairs `(k, c)` with `c` the number of
indices `i < totalWorkItems` whose block `[i·L, i·L+L)` equals `k` and `c > 0`:
every block is counted under its key, stored counts are positive, and a byte
string equal to no block is not a key. -/
theorem aggregate_counts_blocks (buffer : Mem) (totalWorkItems L : Nat)
    (htotal : totalWorkItems < 2147483648) (hfit : totalWorkItems * L < 2147483648)
    (k : Str) (c : Int) :
    (k, c) ∈ aggregate buffer (totalWorkItems : Int) (L : Int) [] ↔
      (c = (blockCount buffer totalWorkItems L k : Int) ∧ 0 < c) := by
  rw [aggregate_eq_foldKeys_block buffer totalWorkItems L hfit]
  have hlen : ((List.range totalWorkItems).map (block buffer L)).length < 2147483648 := by
    simp only [List.length_map, List.length_range]; exact htotal
  have hfind := mapFind_foldKeys _ hlen k
  rw [count_map_block] at hfind
  have hsorted : Sorted (foldKeys ((List.range totalWorkItems).map (block buffer L)) []) :=
    sorted_foldKeys _ List.Pairwise.nil
  constructor
  · intro hmem
    have hsome := mapFind_of_mem hsorted hmem
    rw [hfind] at hsome
    split at hsome
    · cases hsome
    · rename_i hne
      cases hsome
      exact ⟨rfl, by omega⟩
  · rintro ⟨hc, hpos⟩
    apply mem_of_mapFind
    rw [hfind, hc]
    have hne : ¬ blockCount buffer totalWorkItems L k = 0 := by omega
    simp [hne]

/-- Scenario 2 of the spec as an instance of C2: the blocks "AB", "BA", "AB"
give the table `AB -> 2`, `BA -> 1`. -/
theorem aggregate_counts_blocks_witness :
    ((([65, 66], 2) : Str × Int) ∈
        aggregate (fun p => [65, 66, 66, 65, 65, 66].getD p 0) ((3 : Nat) : Int) ((2 : Nat) : Int) [] ↔
      ((2 : Int) = (blockCount (fun p => [65, 66, 66, 65, 65, 66].getD p 0) 3 2 [65, 66] : Int)
        ∧ (0 : Int) < 2)) ∧
    aggregate (fun p => [65, 66, 66, 65, 65, 66].getD p 0) ((3 : Nat) : Int) ((2 : Nat) : Int) []
      = [([65, 66], 2), ([66, 65], 1)] :=
  ⟨aggregate_counts_blocks (fun p => [65, 66, 66, 65, 65, 66].getD p 0) 3 2
      (by decide) (by decide) [65, 66] 2,
    by decide⟩

/-- C3. The rows `key,count` that `main` writes are in strictly ascending
byte-wise lexicographic order by key, so that no key appears in two rows: this
holds of every run that writes rows, and a valid run (`1 ≤ L ≤ N`, the buffer
size fitting `int`, the output file opening) does write them and returns 0. -/
theorem rows_strictly_ascending (lines : List Str) (maxProtLenEnv cpuCoresEnv : Option Int)
    (csvOpens : Bool) (stale : Mem) :
    (∀ status rows,
      main (some lines) maxProtLenEnv cpuCoresEnv csvOpens stale
        = Outcome.returned status (some rows) →
      (rows.map Prod.fst).Pairwise (fun a b => strLess a b = true) ∧
      (rows.map Prod.fst).Nodup) ∧
    (1 ≤ maxProtLenEnv.getD 3 → maxProtLenEnv.getD 3 ≤ (readSequence lines).length →
      (((readSequence lines).length : Int) - maxProtLenEnv.getD 3 + 1)
        * maxProtLenEnv.getD 3 < 2147483648 →
      ∃ rows,
        main (some lines) maxProtLenEnv cpuCoresEnv true stale
          = Outcome.returned 0 (some rows)) := by
  constructor
  · intro status rows hmain
    rw [main_some] at hmain
    cases hres : (calculateFrequenciesOpenCL (readSequence lines) (maxProtLenEnv.getD 3) []
        (cpuCoresEnv.getD 1) stale).frequencyMap with
    | error fault =>
      rw [hres] at hmain
      cases hmain
    | ok table =>
      rw [hres] at hmain
      obtain ⟨subsequences, htable, _⟩ := frequencyMap_eq_ok hres
      have hsorted : Sorted table := by
        rw [htable, aggregate_eq_foldKeys]
        exact sorted_foldKeys _ List.Pairwise.nil
      cases csvOpens with
      | false => cases hmain
      | true =>
        cases hmain
        exact keys_of_sorted hsorted
  · intro hL hN hfit
    rw [main_some, calculateFrequenciesOpenCL_valid (readSequence lines) (maxProtLenEnv.getD 3) []
      (cpuCoresEnv.getD 1) stale hL hN hfit]
    exact ⟨_, rfl⟩

/-- Scenario 3 of the spec as an instance of C3: the file `>id / AC / (blank) / GT`
with `MAXPROTLEN = 1` gives the rows `A,1`, `C,1`, `G,1`, `T,1` in that order. -/
theorem rows_strictly_ascending_witness :
    main (some [[62, 105, 100], [65, 67], [], [71, 84]]) (some 1) none true (fun _ => 0)
      = Outcome.returned 0 (some [([65], 1), ([67], 1), ([71], 1), ([84], 1)]) ∧
    (([([65], 1), ([67], 1), ([71], 1), ([84], 1)] : FreqMap).map Prod.fst).Pairwise
      (fun a b => strLess a b = true) ∧
    (([([65], 1), ([67], 1), ([71], 1), ([84], 1)] : FreqMap).map Prod.fst).Nodup ∧
    ∃ rows,
      main (some [[62, 105, 100], [65, 67], [], [71, 84]]) (some 1) none true (fun _ => 0)
        = Outcome.returned 0 (some rows) :=
  ⟨by decide,
    ((rows_strictly_ascending [[62, 105, 100], [65, 67], [], [71, 84]] (some 1) none true
      (fun _ => 0)).1 0 [([65], 1), ([67], 1), ([71], 1), ([84], 1)] (by decide)).1,
    ((rows_strictly_ascending [[62, 105, 100], [65, 67], [], [71, 84]] (some 1) none true
      (fun _ => 0)).1 0 [([65], 1), ([67], 1), ([71], 1), ([84], 1)] (by decide)).2,
    (rows_strictly_ascending [[62, 105, 100], [65, 67], [], [71, 84]] (some 1) none true
      (fun _ => 0)).2 (by decide) (by decide) (by decide)⟩

/-- C4, refuted as stated: for the empty sequence (`N = 0`) and `L = 1` the run
does not fail; `main` returns 0 after writing an output resource with no rows. -/
theorem no_window_length_check :
    main (some []) (some 1) none true (fun _ => 0) = Outcome.returned 0 (some []) := by
  decide

/-- C4, amended.  The code makes no window-length check.  With sizes in the
range of `int`: for `L = N+1` (this covers `N = 0`, `L = 1`) the run completes
with an empty table and `main` writes an output resource with no rows; for
`L = 0` it completes and writes the one row `,N+1`; for `L < 0` or `L > N+1`
the allocation `new char[totalSubsequences * substringLength]` throws, nothing
catches it, and no output resource is written. -/
theorem invalid_window_length_outcomes (lines : List Str) (L : Int) (cpuCoresEnv : Option Int)
    (stale : Mem) (hN : ((readSequence lines).length : Int) + 1 < 2147483648) :
    (L = ((readSequence lines).length : Int) + 1 →
      main (some lines) (some L) cpuCoresEnv true stale = Outcome.returned 0 (some [])) ∧
    (L = 0 →
      main (some lines) (some L) cpuCoresEnv true stale
        = Outcome.returned 0 (some [([], ((readSequence lines).length : Int) + 1)])) ∧
    ((L < 0 ∨ ((readSequence lines).length : Int) + 1 < L) →
      ((readSequence lines).length : Int) - L + 1 < 2147483648 → L < 2147483648 →
      -2147483648 ≤ (((readSequence lines).length : Int) - L + 1) * L →
      main (some lines) (some L) cpuCoresEnv true stale = Outcome.terminated Fault.badAlloc) := by
  have hN0 : (0 : Int) ≤ (readSequence lines).length := Int.ofNat_nonneg _
  refine ⟨?_, ?_, ?_⟩
  · intro hL
    have htot : ((readSequence lines).length : Int) - L + 1 = 0 := by omega
    have hprod : (((readSequence lines).length : Int) - L + 1) * L = 0 := by rw [htot, zero_mul]
    rw [main_some, Option.getD_some,
      calculateFrequenciesOpenCL_inRange (readSequence lines) L [] (cpuCoresEnv.getD 1) stale
        (by omega) (by omega) (by omega) (by omega) (by omega)]
    simp only [htot, zero_mul, lt_irrefl, false_and, if_false, aggregate_zero]
    rfl
  · intro hL
    subst hL
    have hprod : (((readSequence lines).length : Int) - 0 + 1) * 0 = 0 := mul_zero _
    rw [main_some, Option.getD_some,
      calculateFrequenciesOpenCL_inRange (readSequence lines) 0 [] (cpuCoresEnv.getD 1) stale
        (by omega) (by omega) (by omega) (by omega) (by omega)]
    simp only [hprod, lt_irrefl, and_false, if_false, sub_zero]
    rw [aggregate_empty_keys _ (readSequence lines).length (by omega)]
    rfl
  · intro hL htot hLfit hprod
    have hneg : (((readSequence lines).length : Int) - L + 1) * L < 0 := by
      rcases hL with hL | hL
      · exact Int.mul_neg_of_pos_of_neg (by omega) hL
      · exact Int.mul_neg_of_neg_of_pos (by omega) (by omega)
    rw [main_some, Option.getD_some,
      calculateFrequenciesOpenCL_inRange (readSequence lines) L [] (cpuCoresEnv.getD 1) stale
        (by omega) (by omega) htot hprod (by omega)]
    simp only [hneg, if_true]
    rfl

/-- The file with the one line "AC" (`N = 2`) as an instance of amended C4:
`L = 3` gives no rows, `L = 0` the row `,3`, and `L = 5` (there with its side
conditions discharged) the uncaught allocation failure. -/
theorem invalid_window_length_outcomes_witness :
    main (some [[65, 67]]) (some 3) none true (fun _ => 0) = Outcome.returned 0 (some []) ∧
    main (some [[65, 67]]) (some 0) none true (fun _ => 0) = Outcome.returned 0 (some [([], 3)]) ∧
    main (some [[65, 67]]) (some 5) none true (fun _ => 0) = Outcome.terminated Fault.badAlloc :=
  ⟨(invalid_window_length_outcomes [[65, 67]] 3 none (fun _ => 0) (by decide)).1 (by decide),
    (invalid_window_length_outcomes [[65, 67]] 0 none (fun _ => 0) (by decide)).2.1 rfl,
    (invalid_window_length_outcomes [[65, 67]] 5 none (fun _ => 0) (by decide)).2.2
      (Or.inr (by decide)) (by decide) (by decide) (by decide)⟩

/-- C5, refuted as stated: for a sequence of length 2, `L = 1` and the hint 1 the
group size is 2, which is not `min(hint, N-L+1, 1024) = 1` and exceeds the hint. -/
theorem group_size_exceeds_hint :
    (calculateFrequenciesOpenCL [65, 66] 1 [] 1 (fun _ => 0)).localSizeCl = 2 ∧
    ((calculateFrequenciesOpenCL [65, 66] 1 [] 1 (fun _ => 0)).localSizeCl : Int)
      ≠ min 1 (min ((([65, 66] : Str).length : Int) - 1 + 1) 1024) ∧
    (1 : Int) < ((calculateFrequenciesOpenCL [65, 66] 1 [] 1 (fun _ => 0)).localSizeCl : Int) := by
  decide

/-- C5, amended.  For `1 ≤ L ≤ N` (`N` a length an `int` holds) and every hint
the group size of the dispatch is `min(1024, N-L+1)`: the hint is not
consulted. -/
theorem group_size_is_min_of_ceiling_and_windows (sequence : Str)
    (substringLength localSize : Int) (frequencyMap : FreqMap) (stale : Mem)
    (hL : 1 ≤ substringLength) (hN : substringLength ≤ sequence.length)
    (hfit : sequence.length < 2147483648) :
    ((calculateFrequenciesOpenCL sequence substringLength frequencyMap localSize stale).localSizeCl : Int)
      = min 1024 ((sequence.length : Int) - substringLength + 1) := by
  have h₁ : toInt (sequence.length : Int) = sequence.length := toInt_eq_self (by omega) (by omega)
  have h₂ : toInt ((sequence.length : Int) - substringLength) = sequence.length - substringLength :=
    toInt_eq_self (by omega) (by omega)
  have h₃ : toInt ((sequence.length : Int) - substringLength + 1)
      = sequence.length - substringLength + 1 := toInt_eq_self (by omega) (by omega)
  have h₅ : toSizeT ((sequence.length : Int) - substringLength + 1)
      = ((sequence.length : Int) - substringLength + 1).toNat :=
    toSizeT_eq_toNat (by omega) (by omega)
  simp only [calculateFrequenciesOpenCL, h₁, h₂, h₃, h₅]
  omega

/-- Scenario 5 of the spec as an instance of amended C5: 1000 work-items and the
hint 2048 give the group size 1000. -/
theorem group_size_is_min_of_ceiling_and_windows_witness :
    ((calculateFrequenciesOpenCL (List.replicate 1000 65) 1 [] 2048 (fun _ => 0)).localSizeCl : Int)
      = min 1024 (((List.replicate 1000 65 : Str).length : Int) - 1 + 1) ∧
    min (1024 : Int) (((List.replicate 1000 65 : Str).length : Int) - 1 + 1) = 1000 :=
  ⟨group_size_is_min_of_ceiling_and_windows (List.replicate 1000 65) 1 2048 [] (fun _ => 0)
      (by decide) (by rw [List.length_replicate]; decide) (by rw [List.length_replicate]; decide),
    by rw [List.length_replicate]; decide⟩

/-- C6, the code at the failing input.  For a sequence of 1025 bytes "A" and
`L = 1` the source asks for 1025 work-items in groups of 1024; 1025 is not a
whole number of groups, so the launch is refused and no index of `[0, 1025)`
is run.  The table is then folded from whatever the array held: with zero
bytes there, the key of the one row is the zero byte instead of "A". -/
theorem dispatch_drops_work_items :
    (calculateFrequenciesOpenCL (List.replicate 1025 65) 1 [] 1 (fun _ => 0)).globalSize = 1025 ∧
    (calculateFrequenciesOpenCL (List.replicate 1025 65) 1 [] 1 (fun _ => 0)).localSizeCl = 1024 ∧
    1025 % 1024 ≠ 0 ∧
    launchedWorkItems
      (calculateFrequenciesOpenCL (List.replicate 1025 65) 1 [] 1 (fun _ => 0)).globalSize
      (calculateFrequenciesOpenCL (List.replicate 1025 65) 1 [] 1 (fun _ => 0)).localSizeCl = [] ∧
    (calculateFrequenciesOpenCL (List.replicate 1025 65) 1 [] 1 (fun _ => 0)).frequencyMap
      = Except.ok [([0], 1025)] := by
  have hlen : ((List.replicate 1025 65 : Str).length : Int) - 1 + 1 = 1025 := by
    rw [List.length_replicate]; decide
  have hrun := calculateFrequenciesOpenCL_valid (List.replicate 1025 65) 1 [] 1 (fun _ => 0)
    (by decide) (by rw [List.length_replicate]; decide) (by rw [hlen]; decide)
  rw [hlen] at hrun
  have htoNat : (1025 : Int).toNat = 1025 := rfl
  have hmin : min 1024 1025 = 1024 := by decide
  have hlaunch : launchedWorkItems 1025 1024 = [] := by decide
  have hagg : aggregate (fun _ => 0) (1025 : Int) 1 [] = [([0], 1025)] := by
    have hcast : (1025 : Int) = ((1025 : Nat) : Int) := rfl
    have hL : (1 : Int) = ((1 : Nat) : Int) := rfl
    rw [hcast, hL, aggregate_eq_foldKeys_block (fun _ => 0) 1025 1 (by decide)]
    have hmap : (List.range 1025).map (block (fun _ => 0) 1) = List.replicate (1024 + 1) [0] := by
      apply List.eq_replicate_iff.mpr
      refine ⟨by rw [List.length_map, List.length_range], ?_⟩
      intro b hb
      obtain ⟨i, _, hi⟩ := List.mem_map.mp hb
      rw [← hi]
      rfl
    rw [hmap, foldKeys_replicate [0] 1024 (by decide)]
    rfl
  rw [hrun, htoNat, hmin, hlaunch]
  refine ⟨rfl, rfl, by decide, rfl, ?_⟩
  simp only [readBack, hlaunch, List.foldl_nil]
  exact congrArg Except.ok hagg

/-- C7. Every key of the table that `calculateFrequenciesOpenCL` leaves, started
on an empty table, is a byte string of length exactly `L`: this holds of every
call that returns, and in a valid run (`1 ≤ L ≤ N`, the buffer size fitting
`int`) the call does return. -/
theorem keys_have_window_length (sequence : Str) (substringLength localSize : Int)
    (stale : Mem) :
    (∀ table,
      (calculateFrequenciesOpenCL sequence substringLength [] localSize stale).frequencyMap
        = Except.ok table →
      ∀ p ∈ table, (p.1.length : Int) = substringLength) ∧
    (1 ≤ substringLength → substringLength ≤ sequence.length →
      ((sequence.length : Int) - substringLength + 1) * substringLength < 2147483648 →
      ∃ table,
        (calculateFrequenciesOpenCL sequence substringLength [] localSize stale).frequencyMap
          = Except.ok table) := by
  constructor
  · intro table hres p hp
    obtain ⟨subsequences, htable, hneg⟩ := frequencyMap_eq_ok hres
    rw [htable, aggregate_eq_foldKeys] at hp
    rcases fst_mem_foldKeys _ hp with h | h
    · obtain ⟨i, hi, hkey⟩ := List.mem_map.mp h
      have hi' := List.mem_range.mp hi
      have hL : 0 ≤ substringLength := by
        by_contra hlt
        exact hneg ⟨by omega, by omega⟩
      rw [← hkey]
      simp only [mkString, List.length_map, List.length_range]
      omega
    · simp at h
  · intro hL hN hfit
    rw [calculateFrequenciesOpenCL_valid sequence substringLength [] localSize stale hL hN hfit]
    exact ⟨_, rfl⟩

/-- Scenario 2 of the spec as an instance of C7: the call returns the table
`AB -> 2`, `BA -> 1`, whose keys have length 2. -/
theorem keys_have_window_length_witness :
    (∀ p ∈ ([([65, 66], 2), ([66, 65], 1)] : FreqMap), (p.1.length : Int) = 2) ∧
    ∃ table,
      (calculateFrequenciesOpenCL [65, 66, 65, 66] 2 [] 1 (fun _ => 0)).frequencyMap
        = Except.ok table :=
  ⟨(keys_have_window_length [65, 66, 65, 66] 2 1 (fun _ => 0)).1
      [([65, 66], 2), ([66, 65], 1)] (by decide),
    (keys_have_window_length [65, 66, 65, 66] 2 1 (fun _ => 0)).2
      (by decide) (by decide) (by decide)⟩

/-- C8. For a sequence of length `N ≥ 1` (a length an `int` holds) and `L = N`
there is exactly one window, and the resulting table, hence the output of
`main`, has exactly one row: the whole sequence with count 1. -/
theorem whole_sequence_single_row (sequence : Str) (localSize : Int) (stale : Mem)
    (hN : 1 ≤ sequence.length) (hfit : sequence.length < 2147483648) :
    (calculateFrequenciesOpenCL sequence (sequence.length : Int) [] localSize stale).totalSubsequences
      = 1 ∧
    (calculateFrequenciesOpenCL sequence (sequence.length : Int) [] localSize stale).frequencyMap
      = Except.ok [(sequence, 1)] ∧
    ∀ (lines : List Str) (cpuCoresEnv : Option Int), readSequence lines = sequence →
      main (some lines) (some (sequence.length : Int)) cpuCoresEnv true stale
        = Outcome.returned 0 (some [(sequence, 1)]) := by
  refine ⟨?_, ?_, ?_⟩
  · rw [calculateFrequenciesOpenCL_whole sequence localSize stale hN hfit]
  · rw [calculateFrequenciesOpenCL_whole sequence localSize stale hN hfit]
  · intro lines cpuCoresEnv hlines
    rw [main_some, hlines, Option.getD_some,
      calculateFrequenciesOpenCL_whole sequence (cpuCoresEnv.getD 1) stale hN hfit]
    rfl

/-- The sequence "ACGT" with `L = 4` as an instance of C8: one window, one row
`ACGT,1`. -/
theorem whole_sequence_single_row_witness :
    (calculateFrequenciesOpenCL [65, 67, 71, 84] (([65, 67, 71, 84] : Str).length : Int) [] 1
        (fun _ => 0)).totalSubsequences = 1 ∧
    (calculateFrequenciesOpenCL [65, 67, 71, 84] (([65, 67, 71, 84] : Str).length : Int) [] 1
        (fun _ => 0)).frequencyMap = Except.ok [([65, 67, 71, 84], 1)] ∧
    ∀ (lines : List Str) (cpuCoresEnv : Option Int), readSequence lines = [65, 67, 71, 84] →
      main (some lines) (some (([65, 67, 71, 84] : Str).length : Int)) cpuCoresEnv true (fun _ => 0)
        = Outcome.returned 0 (some [([65, 67, 71, 84], 1)]) :=
  whole_sequence_single_row [65, 67, 71, 84] 1 (fun _ => 0) (by simp) (by simp)

/-- C9. The sequence built by the reading loop of `main` is the concatenation,
in file order and with no separator, of exactly the lines that are non-empty
and do not start with the header marker `'>'`. -/
theorem readSequence_eq_contentConcat (lines : List Str) :
    readSequence lines = contentConcat lines := by
  unfold readSequence
  rw [readSequence_foldl]
  rfl

/-- C10. The argument `localSize` has no influence on what
`calculateFrequenciesOpenCL` computes: two calls differing only in it have the
same window count, the same global and group sizes, and the same resulting
table (or the same exception). -/
theorem localSize_has_no_influence (sequence : Str) (substringLength : Int)
    (frequencyMap : FreqMap) (localSize₁ localSize₂ : Int) (stale : Mem) :
    (calculateFrequenciesOpenCL sequence substringLength frequencyMap localSize₁ stale).totalSubsequences
      = (calculateFrequenciesOpenCL sequence substringLength frequencyMap localSize₂ stale).totalSubsequences ∧
    (calculateFrequenciesOpenCL sequence substringLength frequencyMap localSize₁ stale).globalSize
      = (calculateFrequenciesOpenCL sequence substringLength frequencyMap localSize₂ stale).globalSize ∧
    (calculateFrequenciesOpenCL sequence substringLength frequencyMap localSize₁ stale).localSizeCl
      = (calculateFrequenciesOpenCL sequence substringLength frequencyMap localSize₂ stale).localSizeCl ∧
    (calculateFrequenciesOpenCL sequence substringLength frequencyMap localSize₁ stale).frequencyMap
      = (calculateFrequenciesOpenCL sequence substringLength frequencyMap localSize₂ stale).frequencyMap :=
  ⟨rfl, rfl, rfl, rfl⟩

end KmerFreq
